import Mathlib

/-!
Shallow embedding of the leader-contender subsystem of this repository:

* `zookeeper/group.hpp`    — `Group::Membership` and its comparison operators;
* `zookeeper/contender.cpp` — `LeaderContenderProcess`, a three-slot promise
  state machine (`contending`, `watching`, `withdrawing`);
* `master/contender.cpp`    — `MasterContender::create`, the factory that
  dispatches on the connection-URL string.

Futures and promises come from libprocess, which is part of this repository
but not under `src/`; their one-shot completion semantics are modelled from
the spec ("three one-shot state slots", "resolution is single-shot",
"'assigned' = channel created; 'fulfilled' = value sent").  A future is
`pending`, `ready v`, or `failed msg`; a promise is `unset`, `set v`, or
`failedP msg`, and completion (set or fail) is a no-op once the promise has
already completed.

The contender process is an actor: each method or callback runs to
completion.  We model every entry point (`contend`, `withdraw`, `joined`,
`watched`, `cancelled`, the `cancel` helper and the `fail` helper) as a
function from the process state to a new state together with the list of
commands issued to the `Group` (join / cancel / watch registrations).
`CHECK` failures abort the process; we model them as `Except.error`.
-/

namespace Mesos

/-- State of a libprocess future.  Modelled from the spec: libprocess is in
this repository but outside `src/`; a future is pending until completed
exactly once with a value or a failure message.  (`discard` never occurs in
the modelled code paths: the contender code `CHECK`s against it.) -/
inductive FState (α : Type) where
  | pending : FState α
  | ready (a : α) : FState α
  | failed (msg : String) : FState α
deriving DecidableEq, Repr

/-- State of a libprocess promise.  Modelled from the spec: promises are
one-shot ("resolution is single-shot"); once `set` or `failedP`, later
completions are no-ops. -/
inductive PState (α : Type) where
  | unset : PState α
  | set (a : α) : PState α
  | failedP (msg : String) : PState α
deriving DecidableEq, Repr

/-- `Promise::set`: completes the promise if it is not yet complete and
reports whether the transition happened (the C++ `set` returns `bool`). -/
def psetF {α : Type} (p : PState α) (a : α) : PState α × Bool :=
  match p with
  | .unset => (.set a, true)
  | p => (p, false)

/-- `Promise::set`, keeping only the resulting promise state. -/
def pset {α : Type} (p : PState α) (a : α) : PState α :=
  (psetF p a).1

/-- `Promise::fail`: fails the promise if it is not yet complete, otherwise
leaves it unchanged (one-shot semantics). -/
def pfail {α : Type} (msg : String) (p : PState α) : PState α :=
  match p with
  | .unset => .failedP msg
  | p => p

/-- `Group::Membership` from `zookeeper/group.hpp`: a sequence number
(`uint64_t`, whose values we carry as the corresponding natural number —
the code only compares sequences, never does arithmetic on them) and the
`cancelled_` future.  The comparison operators below are translated from
the member operators in the header. -/
structure Membership where
  sequence : Nat
  cancelled_ : FState Bool
deriving DecidableEq, Repr

/-- `Membership::operator ==`: `sequence == that.sequence`. -/
def membEq (a b : Membership) : Bool := a.sequence == b.sequence

/-- `Membership::operator !=`: `sequence != that.sequence`. -/
def membNe (a b : Membership) : Bool := a.sequence != b.sequence

/-- `Membership::operator <`: `sequence < that.sequence`. -/
def membLt (a b : Membership) : Bool := a.sequence < b.sequence

/-- `Membership::operator <=`: `sequence <= that.sequence`. -/
def membLe (a b : Membership) : Bool := a.sequence ≤ b.sequence

/-- `Membership::operator >`: `sequence > that.sequence`. -/
def membGt (a b : Membership) : Bool := a.sequence > b.sequence

/-- `Membership::operator >=`: `sequence >= that.sequence`. -/
def membGe (a b : Membership) : Bool := a.sequence ≥ b.sequence

/-- `Membership::id()`: returns the sequence. -/
def Membership.id (m : Membership) : Nat := m.sequence

/-- `std::set<Membership>::count(m) != 0`: the C++ set is keyed by
`operator <`, so membership is decided by sequence equivalence
(`!(a < b) && !(b < a)`, i.e. equal sequences).  We carry snapshots as
lists. -/
def containsMemb (s : List Membership) (m : Membership) : Bool :=
  s.any (fun x => membEq x m)

/-- Commands the contender process issues to its `Group` (and to the
runtime): observable side effects of each entry point. -/
inductive Cmd where
  | joinGroup : Cmd
  | cancelMembership (m : Membership) : Cmd
  | watchGroup (expected : List Membership) : Cmd
  | queueCancelOnCandidacy : Cmd
deriving DecidableEq, Repr

/-- The state of a `LeaderContenderProcess` (`zookeeper/contender.cpp`):
the three assign-once `Option<Promise>` slots and the `candidacy` future.
`contending` is set with the inner (`watching`) future, which is the only
value it ever receives, so its payload is `Unit`; `watching` carries
`Nothing`, also `Unit`; `withdrawing` carries `bool`. -/
structure CState where
  contending : Option (PState Unit)
  watching : Option (PState Unit)
  withdrawing : Option (PState Bool)
  candidacy : FState Membership
deriving DecidableEq, Repr

/-- A freshly constructed `LeaderContenderProcess`: no slot assigned, the
default-constructed `candidacy` future pending. -/
def initState : CState :=
  { contending := none, watching := none, withdrawing := none,
    candidacy := .pending }

/-- `LeaderContenderProcess::fail`: fail each currently assigned slot's
promise with the message (one-shot: already-completed promises are
untouched); unassigned slots stay unassigned. -/
def failOp (msg : String) (s : CState) : CState :=
  { s with contending := s.contending.map (pfail msg),
           watching := s.watching.map (pfail msg),
           withdrawing := s.withdrawing.map (pfail msg) }

/-- Result of a `withdraw()` call: either the future of the `withdrawing`
promise (`return withdrawing.get()->future();`), or a fresh
immediately-ready future carrying a `bool`.  The latter arises on two
paths: `return false;`, and the repeated-call path
`return withdrawing.get();`, where the non-null `Promise<bool>*` goes
through the pointer-to-bool standard conversion and the implicit
`Future<bool>(bool)` constructor (the same constructor `return false;`
requires), yielding a fresh ready future holding `true`. -/
inductive WRet where
  | promiseFuture : WRet
  | immediateBool (b : Bool) : WRet
deriving DecidableEq, Repr

/-- `LeaderContenderProcess::contend`: `CHECK(contending.isNone())`, then
`candidacy = group->join(data)` (a fresh pending future, with `joined`
deferred on it) and `contending` is assigned a fresh promise whose future
is returned. -/
def contendOp (s : CState) : Except String (CState × List Cmd) :=
  if s.contending.isSome then
    .error "Cannot contend more than once"
  else
    .ok ({ s with candidacy := .pending, contending := some .unset },
         [.joinGroup])

/-- `LeaderContenderProcess::cancel`: if `candidacy` is not ready there is
nothing to cancel; otherwise issue `group->cancel(candidacy.get())` (with
`cancelled` deferred on its result). -/
def cancelOp (s : CState) : CState × List Cmd :=
  match s.candidacy with
  | .ready m => (s, [.cancelMembership m])
  | _ => (s, [])

/-- `LeaderContenderProcess::withdraw`: `CHECK_SOME(contending)`; a
repeated call executes `return withdrawing.get();` — the non-null
`Promise<bool>*` converts to `bool` and then to a fresh immediately-ready
`Future<bool>` holding `true` (see `WRet`); otherwise assign
`withdrawing` and branch on the candidacy state — pending: defer `cancel`
on the candidacy and return the promise's future; ready: call `cancel()`
inline and return the promise's future; failed: `return false;` (a fresh
ready future; the promise stays unset). -/
def withdrawOp (s : CState) : Except String (CState × List Cmd × WRet) :=
  if s.contending.isNone then
    .error "Can only withdraw after the contender has contended"
  else if s.withdrawing.isSome then
    .ok (s, [], .immediateBool true)
  else
    let s1 := { s with withdrawing := some .unset }
    match s1.candidacy with
    | .pending => .ok (s1, [.queueCancelOnCandidacy], .promiseFuture)
    | .ready _ =>
        let (s2, cmds) := cancelOp s1
        .ok (s2, cmds, .promiseFuture)
    | .failed _ => .ok (s1, [], .immediateBool false)

/-- Outcome delivered to the deferred `joined` callback when the
`candidacy` future completes. -/
inductive JOutcome where
  | readyJ (m : Membership) : JOutcome
  | failedJ (msg : String) : JOutcome
deriving DecidableEq, Repr

/-- The candidacy future state a `JOutcome` stands for. -/
def JOutcome.toF : JOutcome → FState Membership
  | .readyJ m => .ready m
  | .failedJ msg => .failed msg

/-- `LeaderContenderProcess::joined`, invoked when `candidacy` completes:
on failure, `fail(candidacy.failure())`; if withdrawing has started,
return early; otherwise `CHECK(watching.isNone())`, assign `watching`,
`CHECK_SOME(contending)`, set the contending promise with the watching
future, and — if that `set` succeeded — register `group->watch()` (empty
expected set). -/
def joinedOp (o : JOutcome) (s : CState) : Except String (CState × List Cmd) :=
  let s0 := { s with candidacy := o.toF }
  match o with
  | .failedJ msg => .ok (failOp msg s0, [])
  | .readyJ _ =>
    if s0.withdrawing.isSome then
      .ok (s0, [])
    else if s0.watching.isSome then
      .error "CHECK watching.isNone()"
    else
      let s1 := { s0 with watching := some .unset }
      match s1.contending with
      | none => .error "CHECK contending.isSome()"
      | some p =>
        let (p1, setOk) := psetF p ()
        let s2 := { s1 with contending := some p1 }
        .ok (s2, if setOk then [.watchGroup []] else [])

/-- Outcome delivered to the `watched` callback by a completing
`group.watch` future. -/
inductive WOutcome where
  | readyW (memberships : List Membership) : WOutcome
  | failedW (msg : String) : WOutcome
deriving DecidableEq, Repr

/-- `LeaderContenderProcess::watched`: `CHECK_SOME(contending)` and
`CHECK(contending->future().isReady())`; if withdrawing has started the
resolution is ignored; a failed watch runs `fail`; otherwise
`CHECK_SOME(watching)`, `CHECK(candidacy.isReady())`, and: candidacy
absent from the snapshot → set the `watching` promise (candidacy lost);
present → re-register `group->watch(memberships.get())`. -/
def watchedOp (o : WOutcome) (s : CState) : Except String (CState × List Cmd) :=
  match s.contending with
  | none => .error "CHECK contending.isSome()"
  | some .unset => .error "CHECK contending future isReady"
  | some (.failedP _) => .error "CHECK contending future isReady"
  | some (.set _) =>
    if s.withdrawing.isSome then
      .ok (s, [])
    else
      match o with
      | .failedW msg => .ok (failOp msg s, [])
      | .readyW memberships =>
        match s.watching with
        | none => .error "CHECK watching.isSome()"
        | some wp =>
          match s.candidacy with
          | .ready m =>
            if containsMemb memberships m then
              .ok (s, [.watchGroup memberships])
            else
              .ok ({ s with watching := some (pset wp ()) }, [])
          | _ => .error "CHECK candidacy.isReady()"

/-- Outcome delivered to the `cancelled` callback by the future returned
from `group->cancel`. -/
inductive COutcome where
  | readyC (b : Bool) : COutcome
  | failedC (msg : String) : COutcome
deriving DecidableEq, Repr

/-- `LeaderContenderProcess::cancelled`: `CHECK(candidacy.isReady())`,
`CHECK_SOME(withdrawing)`, then `withdrawing->set(successful)` — the
promise is completed with the cancel result (value or failure), one-shot. -/
def cancelledOp (o : COutcome) (s : CState) : Except String CState :=
  match s.candidacy with
  | .ready _ =>
    match s.withdrawing with
    | none => .error "CHECK withdrawing.isSome()"
    | some p =>
      let p1 := match o with
        | .readyC b => pset p b
        | .failedC msg => pfail msg p
      .ok { s with withdrawing := some p1 }
  | _ => .error "CHECK candidacy.isReady()"

/-- Every entry point of the `LeaderContenderProcess` actor, with the data
its triggering event carries. -/
inductive Op where
  | contendE : Op
  | withdrawE : Op
  | joinedE (o : JOutcome) : Op
  | watchedE (o : WOutcome) : Op
  | cancelledE (o : COutcome) : Op
  | cancelE : Op
  | failE (msg : String) : Op
deriving DecidableEq, Repr

/-- One step of the process: run the entry point on the state, keeping the
resulting state (a `CHECK` failure aborts the process, leaving no
successor state). -/
def stepState (op : Op) (s : CState) : Except String CState :=
  match op with
  | .contendE => (contendOp s).map Prod.fst
  | .withdrawE => (withdrawOp s).map Prod.fst
  | .joinedE o => (joinedOp o s).map Prod.fst
  | .watchedE o => (watchedOp o s).map Prod.fst
  | .cancelledE o => cancelledOp o s
  | .cancelE => .ok (cancelOp s).1
  | .failE msg => .ok (failOp msg s)

/-!
Embedding of `MasterContender::create` from `src/master/contender.cpp`.
The string helpers translate the stout routines it uses
(`strings::startsWith`, `strings::trim`, `std::string::substr`), working
on the character lists of the (ASCII) inputs involved.
-/

/-- `strings::startsWith(s, p)`: `p` is a character-wise head of `s`. -/
def strStarts (s p : String) : Bool :=
  p.data.isPrefixOf s.data

/-- The whitespace characters stout `strings::trim` strips by default. -/
def isWS (c : Char) : Bool :=
  c == ' ' || c == '\t' || c == '\n' || c == '\r'

/-- `strings::trim(s)`: drop leading and trailing whitespace. -/
def trimWS (s : String) : String :=
  ⟨((s.data.dropWhile isWS).reverse.dropWhile isWS).reverse⟩

/-- `s.substr(n)`: drop the first `n` characters. -/
def strDropN (s : String) (n : Nat) : String :=
  ⟨s.data.drop n⟩

/-- Modelled from the spec: `zookeeper::URL` (`zookeeper/url.hpp` is not
under `src/`).  `MasterContender::create` only consults the parsed `path`
component, so only that field is carried. -/
structure ZKURL where
  path : String
deriving DecidableEq, Repr

/-- The contender `MasterContender::create` constructs on success: the
standalone variant for the empty specification or the ZooKeeper variant
for a parsed `zk://` URL. -/
inductive MContender where
  | standalone : MContender
  | zkContender (u : ZKURL) : MContender
deriving DecidableEq, Repr

/-- `MasterContender::create(zk)` (a `Try`, i.e. value or error).  It is
parameterised by `parse` (`URL::parse`, declared in `zookeeper/url.hpp`,
not under `src/`) and `rd` (`os::read`, a stout primitive reading the
named file).  The `file://` branch recurses on the trimmed file contents;
the C++ recursion is unbounded (a cycle of files diverges), so the model
takes a fuel parameter consumed only by that recursion, and exhausted fuel
reports an error. -/
def create (parse : String → Except String ZKURL)
    (rd : String → Except String String) :
    Nat → String → Except String MContender
  | fuel, zk =>
    if zk = "" then
      .ok .standalone
    else if strStarts zk "zk://" then
      match parse zk with
      | .error e => .error e
      | .ok u =>
        if u.path = "/" then
          .error "Expecting a (chroot) path for ZooKeeper (/ is not supported)"
        else
          .ok (.zkContender u)
    else if strStarts zk "file://" then
      let path := strDropN zk 7
      match rd path with
      | .error _ => .error ("Failed to read from file at " ++ path)
      | .ok contents =>
        match fuel with
        | 0 => .error "file recursion limit reached"
        | n + 1 => create parse rd n (trimWS contents)
    else
      .error ("Failed to parse " ++ zk)

/-- `Future::isReady`. -/
def FState.isReady {α : Type} : FState α → Bool
  | .ready _ => true
  | _ => false

/-!
Named states reached by the concrete traces used below.  `m1` is a
membership with sequence 1 whose `cancelled` future is still pending.
-/

/-- A sample membership (sequence 1). -/
def m1 : Membership := ⟨1, .pending⟩

/-- State after `contend()` on a fresh contender. -/
def sContended : CState :=
  { contending := some .unset, watching := none, withdrawing := none,
    candidacy := .pending }

/-- State after `contend()`; `joined` with a successful join of `m1`. -/
def sJoined : CState :=
  { contending := some (.set ()), watching := some .unset,
    withdrawing := none, candidacy := .ready m1 }

/-- `sJoined` after a `withdraw()` call. -/
def sJoinedW : CState :=
  { contending := some (.set ()), watching := some .unset,
    withdrawing := some .unset, candidacy := .ready m1 }

/-- State after `contend()`; `joined` with a join failed with `"e"`. -/
def sJoinFailed : CState :=
  { contending := some (.failedP "e"), watching := none,
    withdrawing := none, candidacy := .failed "e" }

/-- `sJoinFailed` after a first `withdraw()` call. -/
def sJoinFailedW : CState :=
  { contending := some (.failedP "e"), watching := none,
    withdrawing := some .unset, candidacy := .failed "e" }

/-- State after `contend()` followed by `withdraw()` while the join is
still pending. -/
def sWithdrawnPending : CState :=
  { contending := some .unset, watching := none,
    withdrawing := some .unset, candidacy := .pending }

/-- `sWithdrawnPending` after the join completes with membership `m`:
`joined` returns early because withdrawing has started. -/
def sWpJoined (m : Membership) : CState :=
  { contending := some .unset, watching := none,
    withdrawing := some .unset, candidacy := .ready m }

/-- C4: `Group::Membership` comparisons are determined by the sequence
number alone — each operator holds iff the corresponding comparison of the
sequences holds, the `cancelled` future plays no role (two memberships
with the same sequence but different `cancelled` futures, as produced by
different `Group` objects, compare equal), and the comparison is a total
order mirroring the order on the sequence numbers. -/
theorem membership_compare_by_sequence (a b : Membership) :
    (membEq a b = true ↔ a.sequence = b.sequence) ∧
    (membNe a b = true ↔ a.sequence ≠ b.sequence) ∧
    (membLt a b = true ↔ a.sequence < b.sequence) ∧
    (membLe a b = true ↔ a.sequence ≤ b.sequence) ∧
    (membGt a b = true ↔ b.sequence < a.sequence) ∧
    (membGe a b = true ↔ b.sequence ≤ a.sequence) ∧
    (∀ q : Nat, ∀ c c' : FState Bool, membEq ⟨q, c⟩ ⟨q, c'⟩ = true) ∧
    (membLe a b = true ∨ membLe b a = true) ∧
    (membLt a b = true ∨ membEq a b = true ∨ membLt b a = true) := by
  refine ⟨?_, ?_, ?_, ?_, ?_, ?_, ?_, ?_, ?_⟩ <;>
    simp [membEq, membNe, membLt, membLe, membGt, membGe] <;> omega

/-- C9: `contend()` is accepted at most once — with the `contending` slot
unassigned the guarding assertion does not fire, a join is submitted and
the slot becomes assigned; with the slot already assigned the call is a
precondition violation and the guarding `CHECK` fires (modelled as the
error result), leaving no successor state. -/
theorem contend_at_most_once (s : CState) :
    (s.contending = none →
      contendOp s =
        .ok ({ s with candidacy := .pending, contending := some .unset },
             [.joinGroup])) ∧
    (s.contending.isSome = true →
      contendOp s = .error "Cannot contend more than once") := by
  constructor
  · intro h
    simp [contendOp, h]
  · intro h
    simp [contendOp, h]

/-- Witness for `contend_at_most_once`: a fresh contender accepts
`contend()`, and the state it produces rejects a second `contend()`. -/
theorem contend_at_most_once_witness :
    contendOp initState = .ok (sContended, [.joinGroup]) ∧
    contendOp sContended = .error "Cannot contend more than once" := by
  constructor
  · have h := (contend_at_most_once initState).1 (by rfl)
    simpa [initState, sContended] using h
  · exact (contend_at_most_once sContended).2 (by rfl)

/-- C7: a `withdraw()` while the join is still pending issues no cancel —
it only assigns the `withdrawing` slot and queues the `cancel` callback on
the candidacy future; the `cancel` helper issues `group.cancel` with the
obtained membership exactly when the candidacy future is ready, and does
nothing otherwise. -/
theorem withdraw_pending_defers_cancel (s : CState)
    (h1 : s.contending.isSome = true) (h2 : s.withdrawing = none)
    (h3 : s.candidacy = .pending) :
    withdrawOp s =
      .ok ({ s with withdrawing := some .unset },
           [.queueCancelOnCandidacy], .promiseFuture) ∧
    (∀ t : CState, ∀ m : Membership,
      t.candidacy = .ready m → cancelOp t = (t, [.cancelMembership m])) ∧
    (∀ t : CState, t.candidacy.isReady = false → cancelOp t = (t, [])) := by
  refine ⟨?_, ?_, ?_⟩
  · simp [withdrawOp, Option.isNone_iff_eq_none, h2, h3,
      Option.isSome_iff_exists] at h1 ⊢
    obtain ⟨p, hp⟩ := h1
    simp [hp]
  · intro t m hm
    simp [cancelOp, hm]
  · intro t ht
    unfold cancelOp
    cases hc : t.candidacy with
    | ready m => rw [hc] at ht; simp [FState.isReady] at ht
    | pending => rfl
    | failed msg => rfl

/-- Witness for `withdraw_pending_defers_cancel` at the state reached by
`contend()`. -/
theorem withdraw_pending_defers_cancel_witness :
    withdrawOp sContended =
      .ok (sWithdrawnPending, [.queueCancelOnCandidacy], .promiseFuture) ∧
    cancelOp (sWpJoined m1) = (sWpJoined m1, [.cancelMembership m1]) ∧
    cancelOp sContended = (sContended, []) := by
  have h := withdraw_pending_defers_cancel sContended (by rfl) (by rfl) (by rfl)
  refine ⟨?_, ?_, ?_⟩
  · simpa [sContended, sWithdrawnPending] using h.1
  · exact h.2.1 (sWpJoined m1) m1 (by rfl)
  · exact h.2.2 sContended (by rfl)

/-- C1 counterexample: a contender whose join succeeded and whose
`contend()` outer future was set (trace `contend(); joined(ready m1);
withdraw()`), receiving a watch resolution whose snapshot no longer
contains its candidacy (`[]`) — contrary to the claim, the candidacy-lost
(`watching`) promise is not set and the resolution is dropped, because the
`withdrawing` guard in `watched` returns early. -/
theorem watched_withdraw_race_cex :
    contendOp initState = .ok (sContended, [.joinGroup]) ∧
    joinedOp (.readyJ m1) sContended = .ok (sJoined, [.watchGroup []]) ∧
    withdrawOp sJoined =
      .ok (sJoinedW, [.cancelMembership m1], .promiseFuture) ∧
    containsMemb [] m1 = false ∧
    watchedOp (.readyW []) sJoinedW = .ok (sJoinedW, []) ∧
    sJoinedW.watching = some .unset := by
  refine ⟨by rfl, by rfl, by rfl, by rfl, by rfl, by rfl⟩

/-- C1 as amended: in a watching-cycle state (outer future set, `watching`
pending, candidacy ready) on which `withdraw()` has not been called, a
resolved watch with the candidacy absent sets the `watching` promise and
registers no further watch, and with the candidacy present re-registers
`group.watch` with the resolved snapshot; once `withdraw()` has been
called the resolution is ignored. -/
theorem watched_selfwatch_cycle (s : CState) (m : Membership)
    (S : List Membership)
    (hc : s.contending = some (.set ())) (hw : s.watching = some .unset)
    (hcand : s.candidacy = .ready m) :
    (s.withdrawing = none →
      (containsMemb S m = false →
        watchedOp (.readyW S) s =
          .ok ({ s with watching := some (.set ()) }, [])) ∧
      (containsMemb S m = true →
        watchedOp (.readyW S) s = .ok (s, [.watchGroup S]))) ∧
    (s.withdrawing.isSome = true →
      watchedOp (.readyW S) s = .ok (s, [])) := by
  refine ⟨fun hnone => ⟨fun habs => ?_, fun hpres => ?_⟩, fun hsome => ?_⟩
  · simp [watchedOp, hc, hw, hcand, hnone, habs, pset, psetF]
  · simp [watchedOp, hc, hw, hcand, hnone, hpres]
  · simp [watchedOp, hc, hsome]

/-- Witness for `watched_selfwatch_cycle` at the joined state with
snapshots `[]` (candidacy lost) and `[m1]` (still present), and at the
withdrawing state. -/
theorem watched_selfwatch_cycle_witness :
    watchedOp (.readyW []) sJoined =
      .ok ({ sJoined with watching := some (.set ()) }, []) ∧
    watchedOp (.readyW [m1]) sJoined = .ok (sJoined, [.watchGroup [m1]]) ∧
    watchedOp (.readyW []) sJoinedW = .ok (sJoinedW, []) := by
  refine ⟨?_, ?_, ?_⟩
  · exact ((watched_selfwatch_cycle sJoined m1 [] (by rfl) (by rfl)
      (by rfl)).1 (by rfl)).1 (by rfl)
  · exact ((watched_selfwatch_cycle sJoined m1 [m1] (by rfl) (by rfl)
      (by rfl)).1 (by rfl)).2 (by rfl)
  · exact (watched_selfwatch_cycle sJoinedW m1 [] (by rfl) (by rfl)
      (by rfl)).2 (by rfl)

/-- C2: the code on the trace `contend(); joined(failed "e");
withdraw(); withdraw()`.  The first `withdraw()` returns a fresh
immediately-ready `false` future (the `return false;` path), leaving the
just-allocated `withdrawing` promise unset forever; the repeated call
executes `return withdrawing.get();`, whose `Promise<bool>*` converts to
a fresh immediately-ready `true` future — a different future with a
different value.  This contradicts the claimed (and code-commented)
behaviour that repeated calls return the identical future. -/
theorem withdraw_repeat_after_failure_differs :
    contendOp initState = .ok (sContended, [.joinGroup]) ∧
    joinedOp (.failedJ "e") sContended = .ok (sJoinFailed, []) ∧
    withdrawOp sJoinFailed =
      .ok (sJoinFailedW, [], .immediateBool false) ∧
    withdrawOp sJoinFailedW =
      .ok (sJoinFailedW, [], .immediateBool true) ∧
    WRet.immediateBool false ≠ WRet.immediateBool true ∧
    sJoinFailedW.withdrawing = some .unset := by
  refine ⟨by rfl, by rfl, by rfl, by rfl, by decide, by rfl⟩

/-- C3 counterexample: on the trace `contend(); joined(failed "e");
withdraw(); withdraw()` the second `withdraw()` call — made after the join
has failed — does not return an immediately-ready `false` future: the
`return withdrawing.get();` path converts the non-null promise pointer
to a fresh immediately-ready `true` future, while the `withdrawing`
promise itself is still (and stays) unset. -/
theorem withdraw_after_failure_repeat_cex :
    (contendOp initState = .ok (sContended, [.joinGroup]) ∧
     joinedOp (.failedJ "e") sContended = .ok (sJoinFailed, []) ∧
     withdrawOp sJoinFailed = .ok (sJoinFailedW, [], .immediateBool false)) ∧
    withdrawOp sJoinFailedW = .ok (sJoinFailedW, [], .immediateBool true) ∧
    WRet.immediateBool true ≠ WRet.immediateBool false ∧
    sJoinFailedW.withdrawing = some .unset := by
  exact ⟨⟨by rfl, by rfl, by rfl⟩, by rfl, by decide, by rfl⟩

/-- C3 as amended: a `withdraw()` made after the join has failed, when no
earlier `withdraw()` call assigned the `withdrawing` slot, returns an
immediately-ready `false` future and issues no group cancel (the slot is
assigned but its promise left unset); a repeated `withdraw()` call in
that situation instead returns a fresh immediately-ready `true` future
(the raw promise pointer converted through `Future<bool>(bool)`), again
issuing no group cancel. -/
theorem withdraw_after_failed_join (s : CState) (msg : String)
    (h1 : s.contending.isSome = true)
    (h3 : s.candidacy = .failed msg) :
    (s.withdrawing = none →
      withdrawOp s =
        .ok ({ s with withdrawing := some .unset }, [], .immediateBool false)) ∧
    (s.withdrawing.isSome = true →
      withdrawOp s = .ok (s, [], .immediateBool true)) := by
  rw [Option.isSome_iff_exists] at h1
  obtain ⟨p, hp⟩ := h1
  constructor
  · intro h2
    simp [withdrawOp, hp, h2, h3]
  · intro h2
    simp [withdrawOp, hp, h2]

/-- Witness for `withdraw_after_failed_join` at the failed-join state and
at the same state after a first `withdraw()`. -/
theorem withdraw_after_failed_join_witness :
    withdrawOp sJoinFailed =
      .ok (sJoinFailedW, [], .immediateBool false) ∧
    withdrawOp sJoinFailedW = .ok (sJoinFailedW, [], .immediateBool true) := by
  have h := withdraw_after_failed_join sJoinFailed "e" (by rfl) (by rfl)
  have h' := withdraw_after_failed_join sJoinFailedW "e" (by rfl) (by rfl)
  constructor
  · simpa [sJoinFailed, sJoinFailedW] using h.1 (by rfl)
  · exact h'.2 (by rfl)

/-- C5 counterexample: a failed watch delivered to the state reached by
`contend(); joined(ready m1)` runs `fail("oops")` with all of `contending`
(assigned, already completed with the inner future) and `watching`
(assigned, incomplete) assigned — contrary to the claim, the `contending`
promise is not failed with the message: it already completed and stays
`set`. -/
theorem fail_completed_slot_cex :
    contendOp initState = .ok (sContended, [.joinGroup]) ∧
    joinedOp (.readyJ m1) sContended = .ok (sJoined, [.watchGroup []]) ∧
    sJoined.contending = some (.set ()) ∧
    watchedOp (.failedW "oops") sJoined =
      .ok ({ sJoined with watching := some (.failedP "oops") }, []) ∧
    failOp "oops" sJoined = { sJoined with watching := some (.failedP "oops") } ∧
    (failOp "oops" sJoined).contending ≠ some (.failedP "oops") := by
  refine ⟨by rfl, by rfl, by rfl, by rfl, by rfl, by decide⟩

/-- C5 as amended: `fail(message)` fails, with that same message, each
assigned slot whose promise has not yet completed; assigned slots whose
promise already completed (set or failed) are unchanged, and unassigned
slots are left unassigned. -/
theorem fail_propagates_to_incomplete_slots (s : CState) (msg : String) :
    ((failOp msg s).contending = none ↔ s.contending = none) ∧
    (s.contending = some .unset →
      (failOp msg s).contending = some (.failedP msg)) ∧
    (∀ v, s.contending = some (.set v) →
      (failOp msg s).contending = some (.set v)) ∧
    (∀ e, s.contending = some (.failedP e) →
      (failOp msg s).contending = some (.failedP e)) ∧
    ((failOp msg s).watching = none ↔ s.watching = none) ∧
    (s.watching = some .unset →
      (failOp msg s).watching = some (.failedP msg)) ∧
    (∀ v, s.watching = some (.set v) →
      (failOp msg s).watching = some (.set v)) ∧
    (∀ e, s.watching = some (.failedP e) →
      (failOp msg s).watching = some (.failedP e)) ∧
    ((failOp msg s).withdrawing = none ↔ s.withdrawing = none) ∧
    (s.withdrawing = some .unset →
      (failOp msg s).withdrawing = some (.failedP msg)) ∧
    (∀ v, s.withdrawing = some (.set v) →
      (failOp msg s).withdrawing = some (.set v)) ∧
    (∀ e, s.withdrawing = some (.failedP e) →
      (failOp msg s).withdrawing = some (.failedP e)) := by
  refine ⟨?_, ?_, ?_, ?_, ?_, ?_, ?_, ?_, ?_, ?_, ?_, ?_⟩ <;>
    simp [failOp, pfail] <;>
    intros <;> simp_all [pfail]

/-- Witness for `fail_propagates_to_incomplete_slots` at `sJoined`: the
completed `contending` promise is untouched while the incomplete
`watching` promise is failed, and the unassigned `withdrawing` slot stays
unassigned. -/
theorem fail_propagates_to_incomplete_slots_witness :
    (failOp "oops" sJoined).contending = some (.set ()) ∧
    (failOp "oops" sJoined).watching = some (.failedP "oops") ∧
    ((failOp "oops" sJoined).withdrawing = none ↔ sJoined.withdrawing = none) := by
  have h := fail_propagates_to_incomplete_slots sJoined "oops"
  refine ⟨h.2.2.1 () (by rfl), h.2.2.2.2.2.1 (by rfl), h.2.2.2.2.2.2.2.2.1⟩

/-- `fail` preserves which slots are assigned (it maps over the options,
so `none` stays `none` and `some` stays `some`). -/
theorem failOp_preserves_assigned (msg : String) (s : CState) :
    (failOp msg s).contending.isSome = s.contending.isSome ∧
    (failOp msg s).watching.isSome = s.watching.isSome ∧
    (failOp msg s).withdrawing.isSome = s.withdrawing.isSome := by
  simp [failOp]

/-- C6: across every entry point of the process, a slot that is assigned
(`isSome`) stays assigned in any successor state — the three slots are
assign-once markers and are never reset to `None`. -/
theorem slots_assign_once (op : Op) (s s' : CState)
    (h : stepState op s = .ok s') :
    (s.contending.isSome = true → s'.contending.isSome = true) ∧
    (s.watching.isSome = true → s'.watching.isSome = true) ∧
    (s.withdrawing.isSome = true → s'.withdrawing.isSome = true) := by
  cases op with
  | contendE =>
    simp only [stepState, contendOp] at h
    by_cases hc : s.contending.isSome
    · simp [hc, Except.map] at h
    · simp [hc, Except.map] at h
      subst h
      simp_all
  | withdrawE =>
    simp only [stepState, withdrawOp] at h
    by_cases hc : s.contending.isNone
    · simp [hc, Except.map] at h
    · by_cases hw : s.withdrawing.isSome
      · simp [hc, hw, Except.map] at h
        subst h
        simp_all
      · cases hcand : s.candidacy with
        | pending =>
          simp [hc, hw, hcand, Except.map] at h
          subst h
          simp_all
        | ready m =>
          simp [hc, hw, hcand, Except.map, cancelOp] at h
          subst h
          simp_all
        | failed e =>
          simp [hc, hw, hcand, Except.map] at h
          subst h
          simp_all
  | joinedE o =>
    cases o with
    | failedJ msg =>
      simp only [stepState, joinedOp, JOutcome.toF, Except.map,
        Except.ok.injEq] at h
      subst h
      have hf := failOp_preserves_assigned msg { s with candidacy := .failed msg }
      simp_all
    | readyJ m =>
      simp only [stepState, joinedOp, JOutcome.toF] at h
      by_cases hw : s.withdrawing.isSome
      · simp [hw, Except.map] at h
        subst h
        simp_all
      · by_cases hwat : s.watching.isSome
        · simp [hw, hwat, Except.map] at h
        · cases hc : s.contending with
          | none => simp [hw, hwat, hc, Except.map] at h
          | some p =>
            simp [hw, hwat, hc, Except.map] at h
            subst h
            simp_all
  | watchedE o =>
    simp only [stepState, watchedOp] at h
    cases hc : s.contending with
    | none => simp [hc, Except.map] at h
    | some p =>
      cases p with
      | unset => simp [hc, Except.map] at h
      | failedP e => simp [hc, Except.map] at h
      | set v =>
        by_cases hw : s.withdrawing.isSome
        · simp [hc, hw, Except.map] at h
          subst h
          simp_all
        · cases o with
          | failedW msg =>
            simp [hc, hw, Except.map] at h
            subst h
            have hf := failOp_preserves_assigned msg s
            simp_all
          | readyW S =>
            cases hwat : s.watching with
            | none => simp [hc, hw, hwat, Except.map] at h
            | some wp =>
              cases hcand : s.candidacy with
              | pending => simp [hc, hw, hwat, hcand, Except.map] at h
              | failed e => simp [hc, hw, hwat, hcand, Except.map] at h
              | ready m =>
                by_cases hmem : containsMemb S m = true
                · simp [hc, hw, hwat, hcand, hmem, Except.map] at h
                  subst h
                  simp_all
                · simp [hc, hw, hwat, hcand, hmem, Except.map] at h
                  subst h
                  simp_all
  | cancelledE o =>
    simp only [stepState, cancelledOp] at h
    cases hcand : s.candidacy with
    | pending => simp [hcand] at h
    | failed e => simp [hcand] at h
    | ready m =>
      cases hw : s.withdrawing with
      | none => simp [hcand, hw] at h
      | some p =>
        simp [hcand, hw] at h
        subst h
        simp_all
  | cancelE =>
    simp only [stepState, cancelOp] at h
    cases hcand : s.candidacy with
    | pending => simp [hcand] at h; subst h; simp_all
    | failed e => simp [hcand] at h; subst h; simp_all
    | ready m => simp [hcand] at h; subst h; simp_all
  | failE msg =>
    simp only [stepState, Except.ok.injEq] at h
    subst h
    have hf := failOp_preserves_assigned msg s
    simp_all

/-- Witness for `slots_assign_once`: the `withdraw()` step out of the
joined state keeps all three slots assigned afterwards. -/
theorem slots_assign_once_witness :
    stepState .withdrawE sJoined = .ok sJoinedW ∧
    (sJoined.contending.isSome = true → sJoinedW.contending.isSome = true) ∧
    (sJoined.watching.isSome = true → sJoinedW.watching.isSome = true) ∧
    (sJoined.withdrawing.isSome = true → sJoinedW.withdrawing.isSome = true) := by
  have hstep : stepState .withdrawE sJoined = .ok sJoinedW := by rfl
  have h := slots_assign_once .withdrawE sJoined sJoinedW hstep
  exact ⟨hstep, h.1, h.2.1, h.2.2⟩

/-- C10: on the trace `contend(); withdraw(); joined(ready m)` — a
withdraw before the join resolves, followed by a successful join — the
`joined` callback returns early: the `contending` promise is never
fulfilled, the `watching` slot is never assigned, and no self-watch is
registered; the only remaining callbacks (the queued `cancel` and its
`cancelled` continuation) keep it that way and register no watch either. -/
theorem withdraw_before_join_suppresses_contending (m : Membership) :
    contendOp initState = .ok (sContended, [.joinGroup]) ∧
    withdrawOp sContended =
      .ok (sWithdrawnPending, [.queueCancelOnCandidacy], .promiseFuture) ∧
    joinedOp (.readyJ m) sWithdrawnPending = .ok (sWpJoined m, []) ∧
    (sWpJoined m).contending = some .unset ∧
    (sWpJoined m).watching = none ∧
    cancelOp (sWpJoined m) = (sWpJoined m, [.cancelMembership m]) ∧
    (∀ b : Bool,
      cancelledOp (.readyC b) (sWpJoined m) =
        .ok { sWpJoined m with withdrawing := some (.set b) } ∧
      { sWpJoined m with withdrawing := some (.set b) }.contending =
        some .unset ∧
      { sWpJoined m with withdrawing := some (.set b) }.watching = none) ∧
    (∀ e : String,
      cancelledOp (.failedC e) (sWpJoined m) =
        .ok { sWpJoined m with withdrawing := some (.failedP e) } ∧
      { sWpJoined m with withdrawing := some (.failedP e) }.contending =
        some .unset ∧
      { sWpJoined m with withdrawing := some (.failedP e) }.watching = none) := by
  refine ⟨by rfl, by rfl, ?_, by rfl, by rfl, by rfl, ?_, ?_⟩
  · simp [joinedOp, JOutcome.toF, sWithdrawnPending, sWpJoined]
  · intro b
    refine ⟨?_, by rfl, by rfl⟩
    simp [cancelledOp, sWpJoined, pset, psetF]
  · intro e
    refine ⟨?_, by rfl, by rfl⟩
    simp [cancelledOp, sWpJoined, pfail]

/-- A string with a nonempty character-wise head is nonempty and starts
with that head character. -/
theorem strStarts_headchar (zk p : String) (c : Char) (rest : List Char)
    (hp : p.data = c :: rest) (h : strStarts zk p = true) :
    zk ≠ "" ∧ ∃ cs : List Char, zk.data = c :: cs := by
  unfold strStarts at h
  rw [hp] at h
  cases hd : zk.data with
  | nil =>
    rw [hd] at h
    simp [List.isPrefixOf] at h
  | cons d ds =>
    rw [hd] at h
    simp [List.isPrefixOf] at h
    obtain ⟨hc, _⟩ := h
    refine ⟨?_, ds, ?_⟩
    · intro he
      rw [he] at hd
      simp at hd
    · rw [hc]

/-- A string starting with character `c` does not start with a string
whose head character differs from `c`. -/
theorem strStarts_headchar_ne (zk q : String) (c d : Char) (cs rest : List Char)
    (hzk : zk.data = c :: cs) (hq : q.data = d :: rest)
    (hne : (d == c) = false) :
    strStarts zk q = false := by
  unfold strStarts
  rw [hzk, hq]
  simp [List.isPrefixOf, hne]

/-- C8: case analysis of `MasterContender::create(zk)` for every parser,
file reader, fuel and input — the empty string yields the standalone
contender; a `zk://` input is parsed (parse errors propagate, a parsed
path of `/` is rejected, anything else yields the ZooKeeper contender); a
`file://` input reads the named file (a read error is reported) and
recurses on the whitespace-trimmed contents; any other input yields an
error, never a contender. -/
theorem master_contender_create_cases
    (parse : String → Except String ZKURL)
    (rd : String → Except String String) (fuel : Nat) (zk : String) :
    (zk = "" → create parse rd fuel zk = .ok .standalone) ∧
    (strStarts zk "zk://" = true →
      (∀ e, parse zk = .error e → create parse rd fuel zk = .error e) ∧
      (∀ u, parse zk = .ok u →
        (u.path = "/" →
          create parse rd fuel zk =
            .error "Expecting a (chroot) path for ZooKeeper (/ is not supported)") ∧
        (u.path ≠ "/" →
          create parse rd fuel zk = .ok (.zkContender u)))) ∧
    (strStarts zk "file://" = true →
      (∀ e, rd (strDropN zk 7) = .error e →
        create parse rd fuel zk =
          .error ("Failed to read from file at " ++ strDropN zk 7)) ∧
      (∀ c n, rd (strDropN zk 7) = .ok c → fuel = n + 1 →
        create parse rd fuel zk = create parse rd n (trimWS c))) ∧
    (zk ≠ "" → strStarts zk "zk://" = false → strStarts zk "file://" = false →
      create parse rd fuel zk = .error ("Failed to parse " ++ zk)) := by
  refine ⟨?_, ?_, ?_, ?_⟩
  · intro he
    subst he
    simp [create]
  · intro hzk
    have hne := strStarts_headchar zk "zk://" 'z' ['k', ':', '/', '/'] rfl hzk
    constructor
    · intro e hp
      rw [create]
      simp [hne.1, hzk, hp]
    · intro u hp
      constructor
      · intro hroot
        rw [create]
        simp [hne.1, hzk, hp, hroot]
      · intro hroot
        rw [create]
        simp [hne.1, hzk, hp, hroot]
  · intro hfile
    have hne := strStarts_headchar zk "file://" 'f' ['i', 'l', 'e', ':', '/', '/']
      rfl hfile
    obtain ⟨hnil, cs, hcs⟩ := hne
    have hnotzk : strStarts zk "zk://" = false :=
      strStarts_headchar_ne zk "zk://" 'f' 'z' cs ['k', ':', '/', '/'] hcs rfl
        (by decide)
    constructor
    · intro e hr
      rw [create]
      simp [hnil, hnotzk, hfile, hr]
    · intro c n hr hfuel
      subst hfuel
      rw [create]
      simp [hnil, hnotzk, hfile, hr]
  · intro hnil hnotzk hnotfile
    rw [create]
    simp [hnil, hnotzk, hnotfile]

/-- Witness for `master_contender_create_cases` with a concrete parser
(mapping everything to path `/mesos`) and reader (returning a padded
`bogus`): each branch evaluated at a concrete input. -/
theorem master_contender_create_cases_witness :
    create (fun _ => .ok ⟨"/mesos"⟩) (fun _ => .ok " bogus \n") 1 "" =
      .ok .standalone ∧
    create (fun _ => .ok ⟨"/mesos"⟩) (fun _ => .ok " bogus \n") 1
        "zk://host:2181/mesos" = .ok (.zkContender ⟨"/mesos"⟩) ∧
    create (fun _ => .ok ⟨"/mesos"⟩) (fun _ => .ok " bogus \n") 1
        "file://cfg" =
      create (fun _ => .ok ⟨"/mesos"⟩) (fun _ => .ok " bogus \n") 0
        (trimWS " bogus \n") ∧
    create (fun _ => .ok ⟨"/mesos"⟩) (fun _ => .ok " bogus \n") 1 "bogus" =
      .error ("Failed to parse " ++ "bogus") := by
  have h0 := master_contender_create_cases (fun _ => .ok ⟨"/mesos"⟩)
    (fun _ => .ok " bogus \n") 1 ""
  have h1 := master_contender_create_cases (fun _ => .ok ⟨"/mesos"⟩)
    (fun _ => .ok " bogus \n") 1 "zk://host:2181/mesos"
  have h2 := master_contender_create_cases (fun _ => .ok ⟨"/mesos"⟩)
    (fun _ => .ok " bogus \n") 1 "file://cfg"
  have h3 := master_contender_create_cases (fun _ => .ok ⟨"/mesos"⟩)
    (fun _ => .ok " bogus \n") 1 "bogus"
  refine ⟨h0.1 rfl, ?_, ?_, ?_⟩
  · exact ((h1.2.1 (by decide)).2 ⟨"/mesos"⟩ rfl).2 (by decide)
  · exact (h2.2.2.1 (by decide)).2 " bogus \n" 0 rfl rfl
  · exact h3.2.2.2 (by decide) (by decide) (by decide)

end Mesos
